import Mathlib

/-!
# Verification of galaksio's concurrent resource-tracking layer

Shallow embedding of the four core components of the galaksio server
(`server/servlets/CacheManager.py`, `RateLimiter.py`, `WorkflowTracker.py`,
`PairedReadsHandler.py`) and proofs of the specified properties.

Conventions of the embedding:
* Python `dict`s are insertion-ordered association lists `List (String × β)`;
  lookup takes the first matching key, update-in-place keeps the position,
  fresh insertion appends.
* Timestamps (`time.time()`, `datetime.now()`) are rationals, passed
  explicitly to each operation (`now`); each locked operation observes a
  single instant.
* Python `float` arithmetic of the confidence score, progress percentages
  and TTLs is modelled over `ℚ`.
* Background threads are modelled by making each loop body an explicit
  state-transition function that the theorems iterate.
-/

namespace Galaksio

/-- Python `dict` lookup over an insertion-ordered association list. -/
def dictGet (l : List (String × β)) (k : String) : Option β :=
  (l.find? (fun p => decide (p.1 = k))).map Prod.snd

/-- Python `d[k] = v`: update in place if present, else append. -/
def dictSet (l : List (String × β)) (k : String) (v : β) : List (String × β) :=
  match l with
  | [] => [(k, v)]
  | p :: t => if p.1 = k then (k, v) :: t else p :: dictSet t k v

/-- Python `del d[k]` (guarded by a containment check in the source). -/
def dictRemove (l : List (String × β)) (k : String) : List (String × β) :=
  match l with
  | [] => []
  | p :: t => if p.1 = k then dictRemove t k else p :: dictRemove t k

/-- The key list of a Python dict, in iteration order. -/
def dictKeys (l : List (String × β)) : List String :=
  l.map Prod.fst

/-! ## Basic association-list lemmas -/

theorem dictGet_nil (k : String) : dictGet ([] : List (String × β)) k = none := rfl

theorem dictKeys_dictSet (l : List (String × β)) (k : String) (v : β) :
    dictKeys (dictSet l k v) = if k ∈ dictKeys l then dictKeys l else dictKeys l ++ [k] := by
  induction l with
  | nil => simp [dictSet, dictKeys]
  | cons p t ih =>
    by_cases h : p.1 = k
    · simp [dictSet, dictKeys, h]
    · simp only [dictSet, if_neg h, dictKeys, List.map_cons]
      have hk : k ∈ dictKeys (p :: t) ↔ k ∈ dictKeys t := by
        simp [dictKeys, Ne.symm h]
      by_cases h2 : k ∈ dictKeys t
      · simp only [dictKeys] at h2
        simp [dictKeys] at ih ⊢
        simp [h2] at ih
        simp [h2, Ne.symm h, ih]
      · simp only [dictKeys] at h2
        simp [dictKeys] at ih ⊢
        simp [h2] at ih
        simp [h2, Ne.symm h, ih]

theorem length_dictSet (l : List (String × β)) (k : String) (v : β) :
    (dictSet l k v).length ≤ l.length + 1 := by
  induction l with
  | nil => simp [dictSet]
  | cons p t ih =>
    by_cases h : p.1 = k
    · simp [dictSet, h]
    · simp only [dictSet, if_neg h, List.length_cons]
      omega

theorem dictKeys_dictRemove (l : List (String × β)) (k : String) :
    dictKeys (dictRemove l k) = (dictKeys l).filter (fun x => decide (x ≠ k)) := by
  induction l with
  | nil => rfl
  | cons p t ih =>
    by_cases h : p.1 = k
    · simp [dictRemove, dictKeys, h, List.filter_cons] at ih ⊢
      exact ih
    · simp [dictRemove, dictKeys, List.filter_cons, h] at ih ⊢
      exact ih

theorem length_dictRemove_le (l : List (String × β)) (k : String) :
    (dictRemove l k).length ≤ l.length := by
  induction l with
  | nil => simp [dictRemove]
  | cons p t ih =>
    by_cases h : p.1 = k
    · simp only [dictRemove, if_pos h, List.length_cons]
      omega
    · simp only [dictRemove, if_neg h, List.length_cons]
      omega

theorem length_dictRemove_lt (l : List (String × β)) (k : String)
    (h : k ∈ dictKeys l) : (dictRemove l k).length < l.length := by
  induction l with
  | nil => simp [dictKeys] at h
  | cons p t ih =>
    simp only [dictKeys, List.map_cons, List.mem_cons] at h
    by_cases hp : p.1 = k
    · have h1 : (dictRemove t k).length ≤ t.length := length_dictRemove_le t k
      simp only [dictRemove, if_pos hp, List.length_cons]
      omega
    · have hk : k ∈ dictKeys t := by
        rcases h with h | h
        · exact absurd h.symm hp
        · exact h
      have := ih hk
      simp only [dictRemove, if_neg hp, List.length_cons]
      omega

theorem dictGet_mem_keys (l : List (String × β)) (k : String) (v : β)
    (h : dictGet l k = some v) : k ∈ dictKeys l := by
  induction l with
  | nil => simp [dictGet] at h
  | cons p t ih =>
    by_cases hp : p.1 = k
    · simp [dictKeys, hp]
    · simp only [dictGet, List.find?] at h
      rw [decide_eq_false hp] at h
      simp only [dictKeys, List.map_cons, List.mem_cons]
      exact Or.inr (ih h)

theorem dictGet_dictRemove_self (l : List (String × β)) (k : String) :
    dictGet (dictRemove l k) k = none := by
  induction l with
  | nil => rfl
  | cons p t ih =>
    by_cases hp : p.1 = k
    · simpa [dictRemove, List.filter_cons, hp] using ih
    · simp only [dictRemove, if_neg hp, dictGet, List.find?] at ih ⊢
      rw [decide_eq_false hp]
      exact ih

theorem dictGet_dictSet_self (l : List (String × β)) (k : String) (v : β) :
    dictGet (dictSet l k v) k = some v := by
  induction l with
  | nil => simp [dictSet, dictGet, List.find?]
  | cons p t ih =>
    by_cases hp : p.1 = k
    · simp [dictSet, hp, dictGet, List.find?]
    · simp only [dictSet, if_neg hp, dictGet, List.find?]
      rw [decide_eq_false hp]
      exact ih

/-! ## CacheManager (`server/servlets/CacheManager.py`)

A `CacheManager` holds two synchronized dicts: `cache : key ↦ entry` and
`access_times : key ↦ last access time`, plus construction-time
`max_size` and `default_ttl`. -/

/-- One cache entry, as built by `CacheManager.set`. -/
structure CacheEntry (V : Type) where
  value : V
  expires_at : ℚ
  created_at : ℚ
deriving Repr, DecidableEq

/-- The mutable state of a `CacheManager` instance. -/
structure CacheState (V : Type) where
  max_size : ℕ
  default_ttl : ℚ
  cache : List (String × CacheEntry V)
  access_times : List (String × ℚ)
deriving Repr, DecidableEq

/-- A freshly constructed `CacheManager(max_size, default_ttl)`. -/
def CacheState.init (V : Type) (max_size : ℕ) (default_ttl : ℚ) : CacheState V :=
  ⟨max_size, default_ttl, [], []⟩

/-- `CacheManager._remove_key`. -/
def cmRemoveKey (st : CacheState V) (k : String) : CacheState V :=
  { st with cache := dictRemove st.cache k, access_times := dictRemove st.access_times k }

/-- `CacheManager.get`: returns the value (or `none` on miss/expiry) and the
post-state; an entry with `expires_at < now` is removed as a side effect,
a live hit refreshes the access time. -/
def cmGet (st : CacheState V) (now : ℚ) (k : String) : Option V × CacheState V :=
  match dictGet st.cache k with
  | none => (none, st)
  | some e =>
    if e.expires_at < now then (none, cmRemoveKey st k)
    else (some e.value, { st with access_times := dictSet st.access_times k now })

/-- `min(access_times.keys(), key=lambda k: access_times[k])`: first key with
the smallest access time, in iteration order (Python `min` keeps the first
of equal elements). -/
def argminTime : List (String × ℚ) → Option String
  | [] => none
  | p :: t => some (argminTimeGo p t)
where
  argminTimeGo : String × ℚ → List (String × ℚ) → String
  | best, [] => best.1
  | best, q :: t => if q.2 < best.2 then argminTimeGo q t else argminTimeGo best t

/-- `CacheManager._evict_lru`: no-op when `access_times` is empty, else
removes the least-recently-used key. -/
def cmEvictLRU (st : CacheState V) : CacheState V :=
  match argminTime st.access_times with
  | none => st
  | some k => cmRemoveKey st k

/-- `CacheManager.set`: evicts once when the cache is at (or beyond)
capacity, then writes the entry.  Python's `ttl or self.default_ttl`
falls back to the default also when `ttl == 0`. -/
def cmSet (st : CacheState V) (now : ℚ) (k : String) (v : V) (ttl : Option ℚ) : CacheState V :=
  let st1 := if st.max_size ≤ st.cache.length then cmEvictLRU st else st
  let t : ℚ := match ttl with
    | none => st1.default_ttl
    | some q => if q = 0 then st1.default_ttl else q
  { st1 with
    cache := dictSet st1.cache k ⟨v, now + t, now⟩
    access_times := dictSet st1.access_times k now }

/-- `CacheManager.exists`: like `get` (including lazy removal of an expired
entry) but without refreshing the access time. -/
def cmExists (st : CacheState V) (now : ℚ) (k : String) : Bool × CacheState V :=
  match dictGet st.cache k with
  | none => (false, st)
  | some e =>
    if e.expires_at < now then (false, cmRemoveKey st k)
    else (true, st)

/-- A `get` or `set` call against the cache, with its observation time. -/
inductive CacheOp (V : Type) where
  | get (now : ℚ) (key : String)
  | set (now : ℚ) (key : String) (value : V) (ttl : Option ℚ)

/-- State transition of one cache operation. -/
def cmStep (st : CacheState V) : CacheOp V → CacheState V
  | .get now k => (cmGet st now k).2
  | .set now k v ttl => cmSet st now k v ttl

/-- Run a sequence of cache operations. -/
def cmRun (st : CacheState V) (ops : List (CacheOp V)) : CacheState V :=
  ops.foldl cmStep st

/-! ### Cache invariants -/

/-- The two dicts of a `CacheManager` stay key-synchronized, and the cache
never exceeds its capacity. -/
def CacheInv (st : CacheState V) : Prop :=
  dictKeys st.cache = dictKeys st.access_times ∧ st.cache.length ≤ st.max_size

theorem argminTimeGo_mem (t : List (String × ℚ)) : ∀ best : String × ℚ,
    argminTime.argminTimeGo best t = best.1 ∨ argminTime.argminTimeGo best t ∈ dictKeys t := by
  induction t with
  | nil => intro best; exact Or.inl rfl
  | cons q t ih =>
    intro best
    simp only [argminTime.argminTimeGo]
    by_cases h : q.2 < best.2
    · rw [if_pos h]
      rcases ih q with h1 | h1
      · exact Or.inr (by simp [dictKeys, h1])
      · exact Or.inr (by simp [dictKeys] at h1 ⊢; exact Or.inr h1)
    · rw [if_neg h]
      rcases ih best with h1 | h1
      · exact Or.inl h1
      · exact Or.inr (by simp [dictKeys] at h1 ⊢; exact Or.inr h1)

theorem argminTime_mem (l : List (String × ℚ)) (k : String)
    (h : argminTime l = some k) : k ∈ dictKeys l := by
  cases l with
  | nil => simp [argminTime] at h
  | cons p t =>
    simp only [argminTime, Option.some.injEq] at h
    rcases argminTimeGo_mem t p with h1 | h1
    · simp [dictKeys, ← h, h1]
    · simp [dictKeys] at h1 ⊢
      exact Or.inr (h ▸ h1)

theorem cacheInv_cmRemoveKey (st : CacheState V) (k : String) (h : CacheInv st) :
    CacheInv (cmRemoveKey st k) := by
  obtain ⟨hkeys, hlen⟩ := h
  refine ⟨?_, ?_⟩
  · simp [cmRemoveKey, dictKeys_dictRemove, hkeys]
  · exact le_trans (length_dictRemove_le st.cache k) hlen

theorem max_size_cmRemoveKey (st : CacheState V) (k : String) :
    (cmRemoveKey st k).max_size = st.max_size := rfl

theorem cacheInv_cmGet (st : CacheState V) (now : ℚ) (k : String) (h : CacheInv st) :
    CacheInv (cmGet st now k).2 := by
  obtain ⟨hkeys, hlen⟩ := h
  unfold cmGet
  cases hg : dictGet st.cache k with
  | none => exact ⟨hkeys, hlen⟩
  | some e =>
    by_cases hexp : e.expires_at < now
    · simpa [hexp] using cacheInv_cmRemoveKey st k ⟨hkeys, hlen⟩
    · simp only [if_neg hexp]
      refine ⟨?_, hlen⟩
      have hmem : k ∈ dictKeys st.access_times := hkeys ▸ dictGet_mem_keys st.cache k e hg
      simp [dictKeys_dictSet, hmem, hkeys]

theorem cacheInv_cmSet (st : CacheState V) (now : ℚ) (k : String) (v : V) (ttl : Option ℚ)
    (hC : 1 ≤ st.max_size) (h : CacheInv st) : CacheInv (cmSet st now k v ttl) := by
  obtain ⟨hkeys, hlen⟩ := h
  unfold cmSet
  by_cases hfull : st.max_size ≤ st.cache.length
  · -- cache at capacity: one eviction strictly shrinks it
    have hflen : st.cache.length = st.max_size := le_antisymm hlen hfull
    have hne : st.access_times ≠ [] := by
      intro hnil
      have hkc : dictKeys st.cache = [] := by rw [hkeys, hnil]; rfl
      have hcnil : st.cache = [] := by
        cases hc : st.cache with
        | nil => rfl
        | cons a l => rw [hc] at hkc; simp [dictKeys] at hkc
      rw [hcnil] at hflen
      simp at hflen
      omega
    obtain ⟨k0, hk0⟩ : ∃ k0, argminTime st.access_times = some k0 := by
      cases hl : st.access_times with
      | nil => exact absurd hl hne
      | cons p t => exact ⟨_, rfl⟩
    have hk0mem : k0 ∈ dictKeys st.cache := by
      rw [hkeys]; exact argminTime_mem _ _ hk0
    have hshrunk : (dictRemove st.cache k0).length < st.cache.length :=
      length_dictRemove_lt st.cache k0 hk0mem
    simp only [if_pos hfull, cmEvictLRU, hk0, cmRemoveKey]
    refine ⟨?_, ?_⟩
    · rw [dictKeys_dictSet, dictKeys_dictSet, dictKeys_dictRemove, dictKeys_dictRemove, hkeys]
    · refine le_trans (length_dictSet _ _ _) ?_
      simp only
      omega
  · -- not at capacity: plain insertion
    have hlt : st.cache.length < st.max_size := lt_of_not_le hfull
    simp only [if_neg hfull]
    refine ⟨?_, ?_⟩
    · rw [dictKeys_dictSet, dictKeys_dictSet, hkeys]
    · refine le_trans (length_dictSet _ _ _) ?_
      simp only
      omega

theorem max_size_cmStep (st : CacheState V) (op : CacheOp V) :
    (cmStep st op).max_size = st.max_size := by
  cases op with
  | get now k =>
    simp only [cmStep, cmGet]
    cases dictGet st.cache k with
    | none => rfl
    | some e =>
      by_cases hexp : e.expires_at < now
      · simp [hexp, cmRemoveKey]
      · simp [hexp]
  | set now k v ttl =>
    simp only [cmStep, cmSet]
    by_cases hfull : st.max_size ≤ st.cache.length
    · simp only [if_pos hfull, cmEvictLRU]
      cases argminTime st.access_times with
      | none => rfl
      | some k0 => rfl
    · simp only [if_neg hfull]

theorem cacheInv_cmStep (st : CacheState V) (op : CacheOp V)
    (hC : 1 ≤ st.max_size) (h : CacheInv st) : CacheInv (cmStep st op) := by
  cases op with
  | get now k => exact cacheInv_cmGet st now k h
  | set now k v ttl => exact cacheInv_cmSet st now k v ttl hC h

theorem cacheInv_cmRun (st : CacheState V) (ops : List (CacheOp V))
    (hC : 1 ≤ st.max_size) (h : CacheInv st) :
    CacheInv (cmRun st ops) ∧ (cmRun st ops).max_size = st.max_size := by
  induction ops generalizing st with
  | nil => exact ⟨h, rfl⟩
  | cons op t ih =>
    have h1 : CacheInv (cmStep st op) := cacheInv_cmStep st op hC h
    have h2 : (cmStep st op).max_size = st.max_size := max_size_cmStep st op
    obtain ⟨ha, hb⟩ := ih (cmStep st op) (h2 ▸ hC) h1
    exact ⟨ha, by rw [cmRun] at hb ⊢; simp only [List.foldl_cons]; rw [hb, h2]⟩

/-- C6: for every sequence of `set`/`get` operations against a cache
constructed with capacity `C ≥ 1`, the number of entries physically held
after any operation (in particular after any `set`) never exceeds `C`:
`set` first evicts when the cache is at capacity. -/
theorem cache_capacity_bound {V : Type} (C : ℕ) (ttl : ℚ) (ops : List (CacheOp V))
    (hC : 1 ≤ C) : (cmRun (CacheState.init V C ttl) ops).cache.length ≤ C := by
  have hinit : CacheInv (CacheState.init V C ttl) := ⟨rfl, by simp [CacheState.init]⟩
  obtain ⟨⟨_, hlen⟩, hmax⟩ := cacheInv_cmRun (CacheState.init V C ttl) ops hC hinit
  rw [hmax] at hlen
  exact hlen

/-- Witness for C6 at capacity 1 with two inserts. -/
theorem cache_capacity_bound_witness :
    1 ≤ 1 ∧
    (cmRun (CacheState.init ℕ 1 5) [.set 0 "a" 10 none, .set 1 "b" 20 none]).cache.length ≤ 1 :=
  ⟨le_refl 1, cache_capacity_bound 1 5 [.set 0 "a" 10 none, .set 1 "b" 20 none] (le_refl 1)⟩

/-- C7 counterexample: with `expires_at = 100` and `now = 100` (so
`now ≥ expiresAt` as the claim reads), `CacheManager.get` still returns the
stored value and `exists` still reports `true`, because the code tests
`expires_at < now` strictly. -/
theorem cache_expiry_boundary_cex :
    (cmGet (⟨10, 300, [("k", (⟨42, 100, 0⟩ : CacheEntry ℕ))], [("k", 0)]⟩ : CacheState ℕ)
        100 "k").1 = some 42 ∧
    (cmExists (⟨10, 300, [("k", (⟨42, 100, 0⟩ : CacheEntry ℕ))], [("k", 0)]⟩ : CacheState ℕ)
        100 "k").1 = true := by
  constructor <;> decide

/-- C7 (amended): once `now` is strictly past `expiresAt`, `get` returns
absent and removes the entry as a side effect, and `exists` returns `false`
and removes the entry, even without an intervening background sweep. -/
theorem cache_expired_entry_absent {V : Type} (st : CacheState V) (now : ℚ) (k : String)
    (e : CacheEntry V) (hk : dictGet st.cache k = some e) (hexp : e.expires_at < now) :
    (cmGet st now k).1 = none ∧ dictGet (cmGet st now k).2.cache k = none ∧
    (cmExists st now k).1 = false ∧ dictGet (cmExists st now k).2.cache k = none := by
  refine ⟨?_, ?_, ?_, ?_⟩ <;>
    simp [cmGet, cmExists, hk, hexp, cmRemoveKey, dictGet_dictRemove_self]

/-- Witness for C7 (amended) on a one-entry cache read strictly after expiry. -/
theorem cache_expired_entry_absent_witness :
    dictGet (⟨3, 300, [("k", (⟨7, 10, 0⟩ : CacheEntry ℕ))], [("k", 0)]⟩ : CacheState ℕ).cache "k"
        = some ⟨7, 10, 0⟩ ∧
    (10 : ℚ) < 11 ∧
    ((cmGet (⟨3, 300, [("k", (⟨7, 10, 0⟩ : CacheEntry ℕ))], [("k", 0)]⟩ : CacheState ℕ) 11 "k").1
        = none ∧
      dictGet (cmGet (⟨3, 300, [("k", (⟨7, 10, 0⟩ : CacheEntry ℕ))], [("k", 0)]⟩ : CacheState ℕ)
        11 "k").2.cache "k" = none ∧
      (cmExists (⟨3, 300, [("k", (⟨7, 10, 0⟩ : CacheEntry ℕ))], [("k", 0)]⟩ : CacheState ℕ)
        11 "k").1 = false ∧
      dictGet (cmExists (⟨3, 300, [("k", (⟨7, 10, 0⟩ : CacheEntry ℕ))], [("k", 0)]⟩ : CacheState ℕ)
        11 "k").2.cache "k" = none) :=
  ⟨rfl, by norm_num,
    cache_expired_entry_absent _ 11 "k" ⟨7, 10, 0⟩ rfl (by norm_num)⟩

/-! ### The `cache_result` decorator (C10)

Python values are modelled as `Option α`, with `none` standing for Python
`None`.  `CacheManager.get` returns the stored value on a live hit and
`None` on a miss, so at the call site both collapse into one channel. -/

/-- The value a Python caller receives from `cache_manager.get`: the flat
Python value, where a miss and a stored `None` both come out as `None`. -/
def pyCacheGet {α : Type} (st : CacheState (Option α)) (now : ℚ) (k : String) :
    Option α × CacheState (Option α) :=
  let r := cmGet st now k
  (r.1.join, r.2)

/-- One call through the wrapper built by the `cache_result` decorator:
`result = get(key); if result is not None: return result;`
`result = func(); set(key, result, ttl); return result`.  The boolean
records whether the wrapped function was executed on this call. -/
def cacheResultCall {α : Type} (st : CacheState (Option α)) (now : ℚ) (key : String)
    (f : Unit → Option α) (ttl : ℚ) : Option α × CacheState (Option α) × Bool :=
  let r := pyCacheGet st now key
  match r.1 with
  | some v => (some v, r.2, false)
  | none => (f (), cmSet r.2 now key (f ()) (some ttl), true)

/-- C10: `get` answers `None` both for a missing key and for a live,
unexpired entry whose stored value is `None`, so the `cache_result`
decorator re-executes the wrapped function whenever the cached result is
`None`. -/
theorem cached_none_indistinguishable {α : Type} (st : CacheState (Option α)) (now : ℚ)
    (k : String) (f : Unit → Option α) (ttl : ℚ)
    (h : dictGet st.cache k = none ∨
         ∃ e, dictGet st.cache k = some e ∧ ¬ e.expires_at < now ∧ e.value = none) :
    (pyCacheGet st now k).1 = none ∧
    (cacheResultCall st now k f ttl).1 = f () ∧
    (cacheResultCall st now k f ttl).2.2 = true := by
  have hget : (pyCacheGet st now k).1 = none := by
    rcases h with h | ⟨e, he, hexp, hv⟩
    · simp [pyCacheGet, cmGet, h]
    · simp [pyCacheGet, cmGet, he, hexp, hv]
  refine ⟨hget, ?_, ?_⟩ <;> simp [cacheResultCall, hget]

/-- Witness for C10 on a cache holding a live `None` entry. -/
theorem cached_none_indistinguishable_witness :
    (∃ e, dictGet (⟨5, 300, [("k", (⟨none, 50, 0⟩ : CacheEntry (Option ℕ)))],
        [("k", 0)]⟩ : CacheState (Option ℕ)).cache "k" = some e ∧
      ¬ e.expires_at < 10 ∧ e.value = none) ∧
    ((pyCacheGet (⟨5, 300, [("k", (⟨none, 50, 0⟩ : CacheEntry (Option ℕ)))],
        [("k", 0)]⟩ : CacheState (Option ℕ)) 10 "k").1 = none ∧
      (cacheResultCall (⟨5, 300, [("k", (⟨none, 50, 0⟩ : CacheEntry (Option ℕ)))],
        [("k", 0)]⟩ : CacheState (Option ℕ)) 10 "k" (fun _ => some 3) 60).1 = some 3 ∧
      (cacheResultCall (⟨5, 300, [("k", (⟨none, 50, 0⟩ : CacheEntry (Option ℕ)))],
        [("k", 0)]⟩ : CacheState (Option ℕ)) 10 "k" (fun _ => some 3) 60).2.2 = true) :=
  ⟨⟨⟨none, 50, 0⟩, rfl, by norm_num, rfl⟩,
    cached_none_indistinguishable _ 10 "k" (fun _ => some 3) 60
      (Or.inr ⟨⟨none, 50, 0⟩, rfl, by norm_num, rfl⟩)⟩

/-! ## RateLimiter (`server/servlets/RateLimiter.py`)

`check_rate_limit` prunes the per-key deque of recorded request times,
rejects without recording when the pruned count reaches the limit, and
otherwise appends the current time. -/

/-- The record returned by `RateLimiter.check_rate_limit`. -/
structure RLDecision where
  allowed : Bool
  remaining : ℕ
  reset_time : ℚ
  limit : ℕ
  window : ℚ
deriving Repr, DecidableEq

/-- The mutable state of a `RateLimiter` instance. -/
structure RLState where
  default_requests : ℕ
  default_window : ℚ
  requests : List (String × List ℚ)
  limits : List (String × ℕ × ℚ)
deriving Repr, DecidableEq

/-- `self.limits.get(key, {'requests': default, 'window': default})`. -/
def rlEffectiveLimit (st : RLState) (key : String) : ℕ × ℚ :=
  (dictGet st.limits key).getD (st.default_requests, st.default_window)

/-- `RateLimiter.set_limit`. -/
def set_limit (st : RLState) (key : String) (requests : ℕ) (window : ℚ) : RLState :=
  { st with limits := dictSet st.limits key (requests, window) }

/-- `RateLimiter.check_rate_limit`.  The deque is pruned in place (so the
pruned list is stored even on rejection); on rejection the current time is
not recorded. -/
def check_rate_limit (st : RLState) (now : ℚ) (key : String) : RLDecision × RLState :=
  let lim := rlEffectiveLimit st key
  let times := (dictGet st.requests key).getD []
  let window_start := now - lim.2
  let times1 := times.dropWhile (fun t => decide (t < window_start))
  if lim.1 ≤ times1.length then
    ({ allowed := false, remaining := 0,
       reset_time := match times1.head? with | some t0 => t0 + lim.2 | none => now,
       limit := lim.1, window := lim.2 },
     { st with requests := dictSet st.requests key times1 })
  else
    let times2 := times1 ++ [now]
    ({ allowed := true, remaining := lim.1 - times2.length,
       reset_time := match times2.head? with | some t0 => t0 + lim.2 | none => now,
       limit := lim.1, window := lim.2 },
     { st with requests := dictSet st.requests key times2 })

/-- A sequence of sequential `check_rate_limit` calls for one key, paired
with their decisions. -/
def rlRun (st : RLState) (key : String) : List ℚ → RLState × List (ℚ × RLDecision)
  | [] => (st, [])
  | t :: rest =>
    let r := check_rate_limit st t key
    let rr := rlRun r.2 key rest
    (rr.1, (t, r.1) :: rr.2)

/-- The call times of the calls that were allowed. -/
def rlAllowedTimes (st : RLState) (key : String) (ts : List ℚ) : List ℚ :=
  (((rlRun st key ts).2).filter (fun p => p.2.allowed)).map Prod.fst

/-! ### The abstract sliding-window step

`check_rate_limit` acts on the key's deque exactly as `slide` below; the
proofs work over this projection and a simulation lemma transports them. -/

/-- Effect of one check on the per-key deque: prune, then test, then
(when allowed) append. -/
def slide (L : ℕ) (W : ℚ) (q : List ℚ) (now : ℚ) : Bool × List ℚ :=
  let q1 := q.dropWhile (fun t => decide (t < now - W))
  if L ≤ q1.length then (false, q1) else (true, q1 ++ [now])

/-- The allowed call times of a sequence of checks, starting from deque `q`. -/
def slideAllowed (L : ℕ) (W : ℚ) : List ℚ → List ℚ → List ℚ
  | _, [] => []
  | q, t :: ts =>
    let r := slide L W q t
    (if r.1 then [t] else []) ++ slideAllowed L W r.2 ts

/-- Membership test for the sliding interval `[a, a + W]`. -/
def inWindow (a W : ℚ) (t : ℚ) : Bool :=
  decide (a ≤ t) && decide (t ≤ a + W)

theorem check_rate_limit_limits (st : RLState) (now : ℚ) (key : String) :
    (check_rate_limit st now key).2.limits = st.limits ∧
    (check_rate_limit st now key).2.default_requests = st.default_requests ∧
    (check_rate_limit st now key).2.default_window = st.default_window := by
  simp only [check_rate_limit]
  split
  · exact ⟨rfl, rfl, rfl⟩
  · exact ⟨rfl, rfl, rfl⟩

theorem rlEffectiveLimit_check (st : RLState) (now : ℚ) (key key' : String) :
    rlEffectiveLimit (check_rate_limit st now key).2 key' = rlEffectiveLimit st key' := by
  obtain ⟨h1, h2, h3⟩ := check_rate_limit_limits st now key
  unfold rlEffectiveLimit
  rw [h1, h2, h3]

theorem check_rate_limit_deque (st : RLState) (now : ℚ) (key : String) :
    (check_rate_limit st now key).1.allowed
        = (slide (rlEffectiveLimit st key).1 (rlEffectiveLimit st key).2
            ((dictGet st.requests key).getD []) now).1 ∧
    dictGet (check_rate_limit st now key).2.requests key
        = some (slide (rlEffectiveLimit st key).1 (rlEffectiveLimit st key).2
            ((dictGet st.requests key).getD []) now).2 := by
  simp only [check_rate_limit, slide]
  by_cases h : (rlEffectiveLimit st key).1 ≤
      (((dictGet st.requests key).getD []).dropWhile
        (fun t => decide (t < now - (rlEffectiveLimit st key).2))).length
  · simp only [if_pos h]
    exact ⟨by simp, by simp [dictGet_dictSet_self]⟩
  · simp only [if_neg h]
    exact ⟨by simp, by simp [dictGet_dictSet_self]⟩

/-- Simulation: the allowed call times of the real limiter are those of the
abstract sliding-window automaton. -/
theorem rlAllowedTimes_eq_slideAllowed (key : String) (ts : List ℚ) :
    ∀ st : RLState, rlAllowedTimes st key ts
      = slideAllowed (rlEffectiveLimit st key).1 (rlEffectiveLimit st key).2
          ((dictGet st.requests key).getD []) ts := by
  induction ts with
  | nil => intro st; rfl
  | cons t rest ih =>
    intro st
    obtain ⟨hall, hdq⟩ := check_rate_limit_deque st t key
    have hlim := rlEffectiveLimit_check st t key key
    have hrec : ((rlRun (check_rate_limit st t key).2 key rest).2.filter
        (fun p => p.2.allowed)).map Prod.fst
        = slideAllowed (rlEffectiveLimit st key).1 (rlEffectiveLimit st key).2
            (slide (rlEffectiveLimit st key).1 (rlEffectiveLimit st key).2
              ((dictGet st.requests key).getD []) t).2 rest := by
      have h1 := ih (check_rate_limit st t key).2
      unfold rlAllowedTimes at h1
      rw [hlim, hdq] at h1
      simpa using h1
    simp only [rlAllowedTimes, rlRun, slideAllowed, List.filter_cons, ← hall]
    cases hA : (check_rate_limit st t key).1.allowed
    · simp [hA, hrec]
    · simp [hA, hrec]

theorem slideAllowed_sublist (L : ℕ) (W : ℚ) :
    ∀ (ts q : List ℚ), List.Sublist (slideAllowed L W q ts) ts := by
  intro ts
  induction ts with
  | nil => intro q; simp [slideAllowed]
  | cons t rest ih =>
    intro q
    unfold slideAllowed
    cases h : (slide L W q t).1
    · simp only [h, if_false, List.nil_append]
      exact (ih (slide L W q t).2).cons t
    · simp only [h, if_true, List.singleton_append]
      exact (ih (slide L W q t).2).cons₂ t

/-- Count of filtered elements never exceeds the list length. -/
theorem filter_length_le (p : ℚ → Bool) (l : List ℚ) :
    (l.filter p).length ≤ l.length :=
  List.length_filter_le p l

/-- Core sliding-window bound: starting from deque `q`, if the call times
are sorted and follow everything in `q`, then the in-window count of `q`
plus the in-window count of the newly allowed times stays within `L`. -/
theorem slideAllowed_window_bound (L : ℕ) (W a : ℚ) :
    ∀ (ts q : List ℚ), List.Pairwise (· ≤ ·) (q ++ ts) →
      ((q.filter (inWindow a W)).length ≤ L) →
      (q.filter (inWindow a W)).length
          + ((slideAllowed L W q ts).filter (inWindow a W)).length ≤ L := by
  intro ts
  induction ts with
  | nil =>
    intro q hs hq
    simpa [slideAllowed] using hq
  | cons t rest ih =>
    intro q hs hq
    have hqt : ∀ x ∈ q, x ≤ t := by
      intro x hx
      have := (List.pairwise_append.mp hs).2.2
      exact this x hx t (by simp)
    have htrest : ∀ x ∈ rest, t ≤ x := by
      have h1 : List.Pairwise (· ≤ ·) (t :: rest) := (List.pairwise_append.mp hs).2.1
      exact (List.pairwise_cons.mp h1).1
    by_cases hin : t ≤ a + W
    · -- the pruned elements lie strictly below the interval
      have hsplit : q.takeWhile (fun s => decide (s < t - W))
          ++ q.dropWhile (fun s => decide (s < t - W)) = q := by
        rw [List.takeWhile_append_dropWhile]
      have hdropped : ∀ x ∈ q.takeWhile (fun s => decide (s < t - W)),
          inWindow a W x = false := by
        intro x hx
        have hxlt : x < t - W := by
          have := List.mem_takeWhile_imp hx
          simpa using this
        have hxa : x < a := lt_of_lt_of_le hxlt (by linarith)
        simp [inWindow, not_le.mpr hxa]
      have hcnt : ((q.dropWhile (fun s => decide (s < t - W))).filter
          (inWindow a W)).length = (q.filter (inWindow a W)).length := by
        conv_rhs => rw [← hsplit]
        rw [List.filter_append, List.length_append]
        have hnil : (q.takeWhile (fun s => decide (s < t - W))).filter (inWindow a W) = [] := by
          rw [List.filter_eq_nil_iff]
          intro x hx
          simp [hdropped x hx]
        rw [hnil]
        simp
      set q1 := q.dropWhile (fun s => decide (s < t - W)) with hq1
      have hq1sub : List.Sublist q1 q := by
        rw [hq1]; exact List.dropWhile_sublist _
      by_cases hrej : L ≤ q1.length
      · have hpair : List.Pairwise (· ≤ ·) (q1 ++ rest) := by
          refine List.Pairwise.sublist ?_ hs
          exact List.Sublist.append hq1sub ((List.Sublist.refl rest).cons t)
        have hmain := ih q1 hpair (le_of_eq_of_le hcnt hq)
        rw [hcnt] at hmain
        simp only [slideAllowed, slide, ← hq1]
        rw [if_pos hrej]
        simp only [List.nil_append]
        simp
        omega
      · have hq2pair : List.Pairwise (· ≤ ·) ((q1 ++ [t]) ++ rest) := by
          have h0 : (q1 ++ [t]) ++ rest = q1 ++ t :: rest := by simp
          rw [h0]
          refine List.Pairwise.sublist ?_ hs
          exact List.Sublist.append hq1sub (List.Sublist.refl _)
        have hq2cnt : ((q1 ++ [t]).filter (inWindow a W)).length ≤ L := by
          have h1 : ((q1 ++ [t]).filter (inWindow a W)).length ≤ (q1 ++ [t]).length :=
            filter_length_le _ _
          have h2 : (q1 ++ [t]).length = q1.length + 1 := by simp
          omega
        have hIH := ih (q1 ++ [t]) hq2pair hq2cnt
        rw [List.filter_append, List.length_append] at hIH
        rw [hcnt] at hIH
        simp only [slideAllowed, slide, ← hq1]
        rw [if_neg hrej]
        cases hw : inWindow a W t
        · simp [hw] at hIH ⊢
          omega
        · simp [hw] at hIH ⊢
          omega
    · -- the call is past the interval, so no later call can land in it
      have hall0 : ((slideAllowed L W q (t :: rest)).filter (inWindow a W)).length = 0 := by
        rw [List.length_eq_zero, List.filter_eq_nil_iff]
        intro x hx
        have hmem : x ∈ t :: rest := (slideAllowed_sublist L W (t :: rest) q).mem hx
        have hxt : t ≤ x := by
          rcases List.mem_cons.mp hmem with h1 | h2
          · exact le_of_eq h1.symm
          · exact htrest _ h2
        intro hwx
        have hx2 : x ≤ a + W := by
          simp only [inWindow, Bool.and_eq_true, decide_eq_true_eq] at hwx
          exact hwx.2
        exact hin (le_trans hxt hx2)
      omega


/-- C5: for every key with effective limit `L` and window `W`, every
sequence of sequential `check_rate_limit` calls with non-decreasing call
times, starting from an empty record, yields at most `L` `allowed = true`
decisions whose call times lie within any sliding interval `[a, a + W]`;
and a rejected call stores only the pruned deque — it records no new
timestamp. -/
theorem rate_limiter_sliding_window (st st' : RLState) (key : String) (L : ℕ) (W : ℚ)
    (ts : List ℚ) (a now : ℚ)
    (hlim : rlEffectiveLimit st key = (L, W))
    (hq0 : (dictGet st.requests key).getD [] = [])
    (hsorted : List.Pairwise (· ≤ ·) ts)
    (hrej : (check_rate_limit st' now key).1.allowed = false) :
    ((rlAllowedTimes st key ts).filter (inWindow a W)).length ≤ L ∧
    dictGet (check_rate_limit st' now key).2.requests key =
      some (((dictGet st'.requests key).getD []).dropWhile
        (fun t => decide (t < now - (rlEffectiveLimit st' key).2))) := by
  constructor
  · rw [rlAllowedTimes_eq_slideAllowed key ts st, hlim, hq0]
    have := slideAllowed_window_bound L W a ts [] (by simpa using hsorted) (by simp)
    simpa using this
  · obtain ⟨hall, hdq⟩ := check_rate_limit_deque st' now key
    rw [hdq]
    unfold slide
    rw [hall] at hrej
    unfold slide at hrej
    by_cases h : (rlEffectiveLimit st' key).1 ≤
        (((dictGet st'.requests key).getD []).dropWhile
          (fun t => decide (t < now - (rlEffectiveLimit st' key).2))).length
    · simp only [if_pos h]
    · simp only [if_neg h] at hrej
      simp at hrej

/-- Witness for C5: default limit 2 per 10 seconds, three calls at times
0, 1, 2; and a limiter with default limit 0, whose every call is rejected. -/
theorem rate_limiter_sliding_window_witness :
    rlEffectiveLimit (⟨2, 10, [], []⟩ : RLState) "c" = (2, 10) ∧
    (check_rate_limit (⟨0, 10, [], []⟩ : RLState) 5 "c").1.allowed = false ∧
    (((rlAllowedTimes (⟨2, 10, [], []⟩ : RLState) "c" [0, 1, 2]).filter
        (inWindow 0 10)).length ≤ 2 ∧
      dictGet (check_rate_limit (⟨0, 10, [], []⟩ : RLState) 5 "c").2.requests "c" =
        some ((((dictGet (⟨0, 10, [], []⟩ : RLState).requests "c")).getD []).dropWhile
          (fun t => decide (t < 5 - (rlEffectiveLimit (⟨0, 10, [], []⟩ : RLState) "c").2)))) :=
  ⟨rfl, rfl,
    rate_limiter_sliding_window ⟨2, 10, [], []⟩ ⟨0, 10, [], []⟩ "c" 2 10 [0, 1, 2] 0 5
      rfl rfl (by decide) rfl⟩

/-! ## WorkflowTracker (`server/servlets/WorkflowTracker.py`)

`active_workflows` is a dict `invocation_id ↦ workflow_info`.  The
background loop snapshots the key list and updates each tracked workflow
from the poll result for that invocation; a failing poll cycle goes
through `_handle_update_error`. -/

theorem dictGet_dictSet_ne (l : List (String × β)) (k k' : String) (v : β) (h : k' ≠ k) :
    dictGet (dictSet l k v) k' = dictGet l k' := by
  induction l with
  | nil =>
    simp only [dictSet, dictGet, List.find?]
    rw [decide_eq_false (fun hh => h hh.symm)]
  | cons p t ih =>
    by_cases hp : p.1 = k
    · simp only [dictSet, if_pos hp, dictGet, List.find?]
      rw [decide_eq_false (fun hh => h hh.symm),
        decide_eq_false (fun hh : p.1 = k' => h (hp ▸ hh).symm)]
    · simp only [dictSet, if_neg hp, dictGet, List.find?]
      by_cases hk' : p.1 = k'
      · rw [decide_eq_true hk']
      · rw [decide_eq_false hk']
        exact ih

/-- A raw workflow step as returned inside the invocation dict. -/
structure StepRaw where
  id : Option String
  workflow_step_label : Option String
  state : Option String
  job_id : Option String
  update_time : Option String
deriving Repr, DecidableEq

/-- One processed step record, as built by `_process_steps`. -/
structure StepInfo where
  id : String
  name : String
  state : String
  job_id : Option String
  start_time : Option String
  end_time : Option String
  error : Option String
deriving Repr, DecidableEq

/-- `WorkflowTracker._process_steps`: keyed by step id, skipping steps with
a falsy (`None` or empty) id; `name` defaults to the id. -/
def process_steps (steps : List StepRaw) : List (String × StepInfo) :=
  steps.foldl (fun acc step =>
    match step.id with
    | none => acc
    | some sid =>
      if sid = "" then acc
      else dictSet acc sid
        { id := sid, name := step.workflow_step_label.getD sid,
          state := step.state.getD "unknown", job_id := step.job_id,
          start_time := step.update_time, end_time := none, error := none }) []

/-- `WorkflowTracker._calculate_progress`: percentage of steps in a
terminal sub-state. -/
def calculate_progress (steps : List StepRaw) : ℚ :=
  if steps = [] then 0
  else
    let total := steps.length
    let completed := (steps.filter
      (fun s => (["ok", "error", "deleted"] : List String).contains (s.state.getD ""))).length
    if 0 < total then (completed : ℚ) / (total : ℚ) * 100 else 0

/-- `WorkflowTracker._check_for_errors`: append one message per failing
step, skipping messages already present. -/
def check_for_errors (steps : List StepRaw) (errors0 : List String) : List String :=
  steps.foldl (fun errs step =>
    if step.state.getD "" = "error" then
      let nm := step.workflow_step_label.getD (match step.id with
        | some s => s
        | none => "None")
      let msg := "Step \x27" ++ nm ++ "\x27 failed"
      if msg ∈ errs then errs else errs ++ [msg]
    else errs) errors0

/-- The per-workflow record kept in `active_workflows`. -/
structure WorkflowInfo where
  workflow_id : String
  invocation_id : String
  start_time : ℚ
  last_update : ℚ
  state : String
  steps : List (String × StepInfo)
  progress : ℚ
  errors : List String
  retry_count : ℕ
  end_time : Option ℚ
deriving Repr, DecidableEq

/-- The tracker's `active_workflows` dict. -/
def TrackerState : Type := List (String × WorkflowInfo)

/-- `self.max_retries`. -/
def max_retries : ℕ := 3

/-- `WorkflowTracker.start_tracking` (the dict write under the lock). -/
def start_tracking (st : TrackerState) (now : ℚ) (workflow_id invocation_id : String) :
    TrackerState :=
  dictSet st invocation_id
    { workflow_id := workflow_id, invocation_id := invocation_id, start_time := now,
      last_update := now, state := "running", steps := [], progress := 0,
      errors := [], retry_count := 0, end_time := none }

/-- `WorkflowTracker.stop_tracking`: locally forces `state = 'completed'`
and stamps `end_time`; the record stays in `active_workflows`. -/
def stop_tracking (st : TrackerState) (now : ℚ) (invocation_id : String) : TrackerState :=
  match dictGet st invocation_id with
  | none => st
  | some wi => dictSet st invocation_id { wi with state := "completed", end_time := some now }

/-- The invocation dict returned by the status provider. -/
structure Invocation where
  state : Option String
  steps : List StepRaw
deriving Repr, DecidableEq

/-- Outcome of `_get_invocation_with_retry` for one job in one poll cycle:
a result dict, a falsy dict (`if not invocation: return`), or an exception
after the in-cycle retries are exhausted. -/
inductive PollResult where
  | ok (inv : Invocation)
  | empty
  | failure (msg : String)
deriving Repr, DecidableEq

/-- Effect of `_handle_update_error` on the job's own record. -/
def applyPollFailure (now : ℚ) (msg : String) (wi : WorkflowInfo) : WorkflowInfo :=
  let wi1 := { wi with retry_count := wi.retry_count + 1 }
  if max_retries ≤ wi1.retry_count then
    { wi1 with
      state := "error", end_time := some now,
      errors := wi1.errors ++ ["Failed to update workflow status: " ++ msg] }
  else wi1

/-- `WorkflowTracker._handle_update_error`. -/
def handle_update_error (st : TrackerState) (now : ℚ) (invocation_id : String)
    (msg : String) : TrackerState :=
  match dictGet st invocation_id with
  | none => st
  | some wi => dictSet st invocation_id (applyPollFailure now msg wi)

/-- Effect of a successful poll on the job's own record, mirroring the
body of `_update_single_workflow` under the lock. -/
def applyPollSuccess (now : ℚ) (inv : Invocation) (wi : WorkflowInfo) : WorkflowInfo :=
  let workflow_state := inv.state.getD "unknown"
  let wi1 := { wi with
    state := workflow_state,
    last_update := now,
    retry_count := 0,
    steps := process_steps inv.steps,
    progress := calculate_progress inv.steps,
    errors := check_for_errors inv.steps wi.errors }
  if (["ok", "error", "deleted"] : List String).contains workflow_state then
    let wi2 := { wi1 with end_time := some now }
    if workflow_state = "error" then
      { wi2 with errors := wi2.errors ++ ["Workflow execution failed"] }
    else wi2
  else wi1

/-- `WorkflowTracker._update_single_workflow`, with the poll outcome made
explicit.  A raised provider error is routed to `_handle_update_error`. -/
def update_single_workflow (st : TrackerState) (now : ℚ) (invocation_id : String)
    (poll : PollResult) : TrackerState :=
  match poll with
  | .failure msg => handle_update_error st now invocation_id msg
  | .empty => st
  | .ok inv =>
    match dictGet st invocation_id with
    | none => st
    | some wi => dictSet st invocation_id (applyPollSuccess now inv wi)

/-- `WorkflowTracker._update_workflow_states`: snapshot the key list, then
update every tracked workflow — terminal or not — from its poll result. -/
def update_workflow_states (st : TrackerState) (now : ℚ) (polls : String → PollResult) :
    TrackerState :=
  (dictKeys st).foldl (fun s inv => update_single_workflow s now inv (polls inv)) st

/-! ### Tracker lemmas -/

theorem update_single_ne (st : TrackerState) (now : ℚ) (id id' : String) (poll : PollResult)
    (h : id' ≠ id) : dictGet (update_single_workflow st now id poll) id' = dictGet st id' := by
  cases poll with
  | failure msg =>
    unfold update_single_workflow handle_update_error
    cases hd : dictGet st id with
    | none => rfl
    | some wi => exact dictGet_dictSet_ne _ _ _ _ h
  | empty => rfl
  | ok inv =>
    unfold update_single_workflow
    cases hd : dictGet st id with
    | none => rfl
    | some wi => exact dictGet_dictSet_ne _ _ _ _ h

theorem update_single_failure_self (st : TrackerState) (now : ℚ) (id : String) (msg : String) :
    dictGet (update_single_workflow st now id (.failure msg)) id
      = (dictGet st id).map (applyPollFailure now msg) := by
  unfold update_single_workflow handle_update_error
  cases hd : dictGet st id with
  | none => simp [hd]
  | some wi => simp [dictGet_dictSet_self]

theorem dictKeys_update_single (st : TrackerState) (now : ℚ) (id : String)
    (poll : PollResult) :
    dictKeys (update_single_workflow st now id poll) = dictKeys st := by
  cases poll with
  | empty => rfl
  | failure msg =>
    unfold update_single_workflow handle_update_error
    cases hd : dictGet st id with
    | none => rfl
    | some wi =>
      have hm : id ∈ dictKeys st := dictGet_mem_keys st id wi hd
      simp [dictKeys_dictSet, hm]
  | ok inv =>
    unfold update_single_workflow
    cases hd : dictGet st id with
    | none => rfl
    | some wi =>
      have hm : id ∈ dictKeys st := dictGet_mem_keys st id wi hd
      simp [dictKeys_dictSet, hm]

theorem foldl_update_not_mem (now : ℚ) (polls : String → PollResult) (id : String) :
    ∀ (ids : List String) (st : TrackerState), id ∉ ids →
      dictGet (ids.foldl (fun s i => update_single_workflow s now i (polls i)) st) id
        = dictGet st id := by
  intro ids
  induction ids with
  | nil => intro st _; rfl
  | cons i t ih =>
    intro st hmem
    simp only [List.foldl_cons]
    have h1 : id ∉ t := fun hh => hmem (List.mem_cons_of_mem _ hh)
    have h2 : id ≠ i := fun hh => hmem (hh ▸ List.mem_cons_self i t)
    rw [ih _ h1, update_single_ne _ _ _ _ _ h2]

theorem dictKeys_foldl_update (now : ℚ) (polls : String → PollResult) :
    ∀ (ids : List String) (st : TrackerState),
      dictKeys (ids.foldl (fun s i => update_single_workflow s now i (polls i)) st)
        = dictKeys st := by
  intro ids
  induction ids with
  | nil => intro st; rfl
  | cons i t ih =>
    intro st
    simp only [List.foldl_cons]
    rw [ih, dictKeys_update_single]

theorem dictKeys_update_workflow_states (st : TrackerState) (now : ℚ)
    (polls : String → PollResult) :
    dictKeys (update_workflow_states st now polls) = dictKeys st :=
  dictKeys_foldl_update now polls (dictKeys st) st

/-- One all-failing poll cycle applies `_handle_update_error` exactly once
to every tracked record. -/
theorem cycle_failure_lookup (st : TrackerState) (now : ℚ) (msg : String) (id : String)
    (hnd : (dictKeys st).Nodup) :
    dictGet (update_workflow_states st now (fun _ => .failure msg)) id
      = (dictGet st id).map (applyPollFailure now msg) := by
  by_cases hmem : id ∈ dictKeys st
  · obtain ⟨l1, l2, hsplit⟩ := List.append_of_mem hmem
    have hnd' := hsplit ▸ hnd
    have hdisj := (List.nodup_append.mp hnd').2.2
    have hid2 : id ∉ l2 := (List.nodup_cons.mp (List.nodup_append.mp hnd').2.1).1
    have hid1 : id ∉ l1 := fun hin => hdisj hin (List.mem_cons_self id l2)
    unfold update_workflow_states
    rw [hsplit, List.foldl_append, List.foldl_cons]
    refine Eq.trans (foldl_update_not_mem now (fun _ => .failure msg) id l2 _ hid2) ?_
    refine Eq.trans (update_single_failure_self _ now id msg) ?_
    exact congrArg (Option.map (applyPollFailure now msg))
      (foldl_update_not_mem now (fun _ => .failure msg) id l1 st hid1)
  · have hnone : dictGet st id = none := by
      cases hd : dictGet st id with
      | none => rfl
      | some wi => exact absurd (dictGet_mem_keys st id wi hd) hmem
    unfold update_workflow_states
    refine Eq.trans (foldl_update_not_mem now (fun _ => .failure msg) id _ st hmem) ?_
    rw [hnone]
    rfl

/-! ### C1: a poll processed after `stop_tracking` overwrites the state -/

/-- Demo state: one tracked workflow. -/
def c1State0 : TrackerState := start_tracking [] 0 "wf" "inv"

/-- Demo state after `stop_tracking` — locally forced to `completed`. -/
def c1State1 : TrackerState := stop_tracking c1State0 1 "inv"

/-- Demo state after a poll result reporting `running` is processed. -/
def c1State2 : TrackerState :=
  update_single_workflow c1State1 2 "inv" (.ok ⟨some "running", []⟩)

/-- C1 evaluated at the failing input: after `stop_tracking` forces
`state = 'completed'`, processing an in-flight poll that reports `running`
overwrites the terminal state — `_update_single_workflow` assigns the
polled state unconditionally and `_update_workflow_states` does not skip
terminal jobs, contradicting the claimed invariant. -/
theorem tracker_poll_overwrites_stopped :
    (dictGet c1State1 "inv").map WorkflowInfo.state = some "completed" ∧
    (dictGet c1State2 "inv").map WorkflowInfo.state = some "running" := by
  constructor <;> rfl

/-! ### C4: three consecutive failed poll cycles -/

/-- C4 (amended): if the provider fails `max_retries = 3` consecutive poll
cycles, the tracked job is forced to the terminal failed state (`'error'`)
with a non-empty error list and an end timestamp.  (The poll loop does
*not* stop polling the job afterwards — see the counterexample.) -/
theorem tracker_consecutive_failures (st0 : TrackerState) (id : String) (wi : WorkflowInfo)
    (t1 t2 t3 : ℚ) (m1 m2 m3 : String)
    (hnd : (dictKeys st0).Nodup) (h : dictGet st0 id = some wi) (h0 : wi.retry_count = 0) :
    ∃ wi3,
      dictGet (update_workflow_states (update_workflow_states (update_workflow_states st0
          t1 (fun _ => .failure m1)) t2 (fun _ => .failure m2)) t3 (fun _ => .failure m3)) id
        = some wi3 ∧
      wi3.state = "error" ∧ wi3.errors ≠ [] ∧ wi3.end_time = some t3 := by
  have hk1 := dictKeys_update_workflow_states st0 t1 (fun _ => .failure m1)
  have hnd1 : (dictKeys (update_workflow_states st0 t1 (fun _ => .failure m1))).Nodup := by
    rw [hk1]; exact hnd
  have hk2 := dictKeys_update_workflow_states
    (update_workflow_states st0 t1 (fun _ => .failure m1)) t2 (fun _ => .failure m2)
  have hnd2 : (dictKeys (update_workflow_states (update_workflow_states st0 t1
      (fun _ => .failure m1)) t2 (fun _ => .failure m2))).Nodup := by
    rw [hk2, hk1]; exact hnd
  have e1 := cycle_failure_lookup st0 t1 m1 id hnd
  rw [h] at e1
  have e2 := cycle_failure_lookup (update_workflow_states st0 t1 (fun _ => .failure m1))
    t2 m2 id hnd1
  rw [e1] at e2
  have e3 := cycle_failure_lookup (update_workflow_states (update_workflow_states st0 t1
    (fun _ => .failure m1)) t2 (fun _ => .failure m2)) t3 m3 id hnd2
  rw [e2] at e3
  simp only [Option.map_some'] at e3
  obtain ⟨wid, iid, stt, lu, s, sp, p, e, rc, et⟩ := wi
  subst h0
  refine ⟨_, e3, ?_, ?_, ?_⟩
  · simp [applyPollFailure, max_retries]
  · simp [applyPollFailure, max_retries]
  · simp [applyPollFailure, max_retries]

/-- Witness for C4 on a freshly tracked workflow. -/
theorem tracker_consecutive_failures_witness :
    (dictKeys (start_tracking [] 0 "wf" "inv")).Nodup ∧
    dictGet (start_tracking [] 0 "wf" "inv") "inv" = some
      { workflow_id := "wf", invocation_id := "inv", start_time := 0, last_update := 0,
        state := "running", steps := [], progress := 0, errors := [], retry_count := 0,
        end_time := none } ∧
    (∃ wi3,
      dictGet (update_workflow_states (update_workflow_states (update_workflow_states
          (start_tracking [] 0 "wf" "inv")
          1 (fun _ => .failure "a")) 2 (fun _ => .failure "b")) 3 (fun _ => .failure "c")) "inv"
        = some wi3 ∧
      wi3.state = "error" ∧ wi3.errors ≠ [] ∧ wi3.end_time = some 3) :=
  ⟨by decide, rfl,
    tracker_consecutive_failures (start_tracking [] 0 "wf" "inv") "inv"
      { workflow_id := "wf", invocation_id := "inv", start_time := 0, last_update := 0,
        state := "running", steps := [], progress := 0, errors := [], retry_count := 0,
        end_time := none }
      1 2 3 "a" "b" "c" (by decide) rfl rfl⟩

/-- Demo state: one tracked workflow, then three failing poll cycles. -/
def c4State3 : TrackerState :=
  update_workflow_states (update_workflow_states (update_workflow_states
    (start_tracking [] 0 "wf" "inv")
    1 (fun _ => PollResult.failure "boom")) 2 (fun _ => PollResult.failure "boom"))
    3 (fun _ => PollResult.failure "boom")

/-- Demo state: a fourth failing poll cycle after the job became terminal. -/
def c4State4 : TrackerState :=
  update_workflow_states c4State3 4 (fun _ => PollResult.failure "boom")

/-- C4 counterexample for "the background poll loop stops polling that job
thereafter": after the third failed cycle the job is terminal (`'error'`,
`retry_count = 3`, one error), yet the fourth poll cycle still updates the
record (`retry_count = 4`, a second error appended) — `active_workflows`
retains the job and `_update_workflow_states` polls every key. -/
theorem tracker_keeps_polling_terminal_cex :
    (dictGet c4State3 "inv").map (fun wi => (wi.state, wi.retry_count, wi.errors.length))
        = some ("error", 3, 1) ∧
    (dictGet c4State4 "inv").map (fun wi => (wi.state, wi.retry_count, wi.errors.length))
        = some ("error", 4, 2) := by
  constructor <;> rfl

/-! ## PairedReadsHandler (`server/servlets/PairedReadsHandler.py`)

The pairing rules are `re.sub` patterns of the shape
`(.+)TOK(_001)?\.(\w+)$` (the `(_001)?` group only for the first four),
applied case-insensitively.  Because the whole pattern is anchored at the
end and `(.+)` can absorb any prefix, `re.sub` rewrites exactly the suffix
match with the longest possible stem (greedy `(.+)`), preferring the
`_001` group present; a name with no match is returned unchanged. -/

/-- Python's `\w` on the ASCII names used here. -/
def isWordChar (c : Char) : Bool := c.isAlphanum || c == '_'

/-- Consume `pat` case-insensitively from the front of `rest`. -/
def ciStarts : List Char → List Char → Option (List Char)
  | [], rest => some rest
  | _ :: _, [] => none
  | p :: ps, c :: cs => if p.toLower = c.toLower then ciStarts ps cs else none

/-- Match `\.(\w+)$`: a literal dot followed by a non-empty word-char tail. -/
def extMatch : List Char → Option (List Char)
  | '.' :: ext => if ext ≠ [] ∧ ext.all isWordChar then some ext else none
  | _ => none

/-- Match `TOK(_001)?\.(\w+)$` against `rest`, preferring the `(_001)?`
group present (greedy), returning whether `_001` was consumed and the
extension. -/
def tailMatch (tok : String) (allow001 : Bool) (rest : List Char) :
    Option (Bool × List Char) :=
  match ciStarts tok.data rest with
  | none => none
  | some r1 =>
    let with001 : Option (Bool × List Char) :=
      if allow001 then
        match ciStarts "_001".data r1 with
        | some r2 => (extMatch r2).map (fun e => (true, e))
        | none => none
      else none
    match with001 with
    | some z => some z
    | none => (extMatch r1).map (fun e => (false, e))

/-- `re.sub(r'(.+)TOK(_001)?\.(\w+)$', r'\1REP\2.\3', s, flags=IGNORECASE)`:
the split point is the largest stem (greedy `(.+)`, stem non-empty); an
unmatched name comes back unchanged. -/
def reSubPattern (tok rep : String) (allow001 : Bool) (s : String) : String :=
  let cs := s.data
  let cands := (List.range cs.length).reverse.filterMap (fun i =>
    if i = 0 then none
    else (tailMatch tok allow001 (cs.drop i)).map (fun z =>
      String.mk (cs.take i) ++ rep ++ (if z.1 then "_001" else "") ++ "." ++ String.mk z.2))
  match cands.head? with
  | some out => out
  | none => s

/-- `PairedReadsHandler.PAIRED_READ_PATTERNS`, in source order, as
name transformations. -/
def PAIRED_READ_PATTERNS : List (String → String) :=
  [reSubPattern "_R1" "_R2" true, reSubPattern "_R2" "_R1" true,
   reSubPattern "_1" "_2" true, reSubPattern "_2" "_1" true,
   reSubPattern "_read1" "_read2" false, reSubPattern "_read2" "_read1" false,
   reSubPattern ".R1" ".R2" false, reSubPattern ".R2" ".R1" false,
   reSubPattern "_forward" "_reverse" false, reSubPattern "_reverse" "_forward" false]

/-- A dataset descriptor; `file_size` and `data_type` carry the `.get`
defaults (`0` / `''`) used by the source. -/
structure FileDesc where
  id : String
  name : String
  file_size : ℕ
  data_type : String
deriving Repr, DecidableEq

/-- `str.lower()` on the names (character-wise; the names are ASCII). -/
def strLower (s : String) : String :=
  String.mk (s.data.map Char.toLower)

/-- `PairedReadsHandler._names_match` (case-insensitive). -/
def names_match (n1 n2 : String) : Bool :=
  strLower n1 == strLower n2

/-- `PairedReadsHandler._find_pair`: try each pattern in order; when it
changes the name, return the first other file whose name matches the
expected partner name; otherwise fall through to the next pattern. -/
def find_pair (file1 : FileDesc) (files : List FileDesc) : Option FileDesc :=
  PAIRED_READ_PATTERNS.findSome? (fun pat =>
    let expected := pat file1.name
    if expected ≠ file1.name then
      files.find? (fun f2 => decide (f2.id ≠ file1.id) && names_match f2.name expected)
    else none)

/-- Case-insensitive substring test (Python `in` on lowered names). -/
def strContains (hay needle : String) : Bool :=
  (List.range (hay.data.length + 1)).any (fun i => needle.data.isPrefixOf (hay.data.drop i))

/-- `PairedReadsHandler._determine_pair_type`. -/
def determine_pair_type (f1 f2 : FileDesc) : String :=
  let n1 := strLower f1.name
  let n2 := strLower f2.name
  if strContains n1 "_r1" && strContains n2 "_r2" then "illumina_r1_r2"
  else if strContains n1 "_r2" && strContains n2 "_r1" then "illumina_r2_r1"
  else if strContains n1 "_1" && strContains n2 "_2" then "illumina_1_2"
  else if strContains n1 "_2" && strContains n2 "_1" then "illumina_2_1"
  else if strContains n1 "forward" && strContains n2 "reverse" then "forward_reverse"
  else if strContains n1 "reverse" && strContains n2 "forward" then "reverse_forward"
  else "unknown"

/-- `PairedReadsHandler._calculate_pair_confidence`, over `ℚ`
(`0.4 = 4/10`, `0.3 = 3/10`, `0.2 = 2/10`). -/
def calculate_pair_confidence (f1 f2 : FileDesc) : ℚ :=
  let n1 := strLower f1.name
  let n2 := strLower f2.name
  let c1 : ℚ :=
    if (strContains n1 "_r1" && strContains n2 "_r2")
        || (strContains n1 "_r2" && strContains n2 "_r1") then 4/10
    else if (strContains n1 "_1" && strContains n2 "_2")
        || (strContains n1 "_2" && strContains n2 "_1") then 3/10
    else 0
  let c2 : ℚ :=
    if 0 < f1.file_size ∧ 0 < f2.file_size then
      c1 + ((min f1.file_size f2.file_size : ℚ) / (max f1.file_size f2.file_size : ℚ)) * (3/10)
    else c1
  let c3 : ℚ := if f1.data_type = f2.data_type then c2 + 2/10 else c2
  min c3 1

/-- The pair-indicator alternatives of `_generate_suggested_name`'s strip
regex, in source order. -/
def stripTokens : List String :=
  ["_R1", "_R2", "_1", "_2", "_read1", "_read2", ".R1", ".R2", "_forward", "_reverse"]

/-- `re.sub(r'(_R1|_R2|_1|_2|_read1|_read2|\.R1|\.R2|_forward|_reverse).*$', '', name)`
(case-insensitive): cut at the leftmost occurrence of any indicator. -/
def stripPairIndicator (s : String) : String :=
  let cs := s.data
  match (List.range cs.length).find? (fun i =>
      stripTokens.any (fun t => (ciStarts t.data (cs.drop i)).isSome)) with
  | some i => String.mk (cs.take i)
  | none => s

/-- `PairedReadsHandler._generate_suggested_name`; Python `min(_, _, key=len)`
keeps the first argument on ties. -/
def generate_suggested_name (f1 f2 : FileDesc) : String :=
  let base1 := stripPairIndicator f1.name
  let base2 := stripPairIndicator f2.name
  (if base2.length < base1.length then base2 else base1) ++ "_paired"

/-- One detected pair group (`files` holds exactly the two mates). -/
structure PairGroup where
  group_id : String
  file1 : FileDesc
  file2 : FileDesc
  pair_type : String
  confidence : ℚ
  suggested_name : String
deriving Repr, DecidableEq

/-- The group record built inside `_group_paired_files`. -/
def pairGroupOf (n : ℕ) (f1 f2 : FileDesc) : PairGroup :=
  { group_id := "pair_" ++ toString n, file1 := f1, file2 := f2,
    pair_type := determine_pair_type f1 f2,
    confidence := calculate_pair_confidence f1 f2,
    suggested_name := generate_suggested_name f1 f2 }

/-- `PairedReadsHandler._group_paired_files`: iterate in input order,
skip files already in `processed_files`, pair with `_find_pair`'s result
(which scans *all* files, processed or not), and mark both consumed. -/
def group_paired_files (files : List FileDesc) : List PairGroup :=
  (files.foldl (fun (acc : List PairGroup × List String) file1 =>
    if file1.id ∈ acc.2 then acc
    else
      match find_pair file1 files with
      | some file2 => (acc.1 ++ [pairGroupOf (acc.1.length + 1) file1 file2],
                       acc.2 ++ [file1.id, file2.id])
      | none => (acc.1, acc.2 ++ [file1.id])) ([], [])).1

/-- `PairedReadsHandler._get_unpaired_files`. -/
def get_unpaired_files (all_files : List FileDesc) (groups : List PairGroup) :
    List FileDesc :=
  let paired_ids := groups.foldl (fun acc g => acc ++ [g.file1.id, g.file2.id]) []
  all_files.filter (fun f => decide (f.id ∉ paired_ids))

/-- `PairedReadsHandler.SUPPORTED_EXTENSIONS`. -/
def SUPPORTED_EXTENSIONS : List String :=
  [".fastq", ".fq", ".fasta", ".fa", ".fas",
   ".fastq.gz", ".fq.gz", ".fasta.gz", ".fa.gz", ".fas.gz",
   ".bam", ".sam"]

/-- `PairedReadsHandler._is_sequencing_file`. -/
def is_sequencing_file (f : FileDesc) : Bool :=
  SUPPORTED_EXTENSIONS.any (fun ext => ext.data.isSuffixOf (strLower f.name).data)

/-- The pure core of `detect_paired_reads`: filter to sequencing files,
group pairs, and collect the unpaired remainder. -/
def detect_pairs (datasets : List FileDesc) : List PairGroup × List FileDesc :=
  let seqs := datasets.filter is_sequencing_file
  let groups := group_paired_files seqs
  (groups, get_unpaired_files seqs groups)

/-! ### C2: the numeric 1/2 convention on `.fq.gz` names -/

/-- The exact input list of the claim. -/
def c2Files : List FileDesc :=
  [⟨"1", "a_1.fq.gz", 100, "fastq"⟩, ⟨"2", "a_2.fq.gz", 100, "fastq"⟩]

/-- C2 evaluated at the input `["a_1.fq.gz", "a_2.fq.gz"]`: the matcher
returns NO pair group and both files unpaired, because every pattern's
tail `\.(\w+)$` cannot span the two-part suffix `.fq.gz` (the `\w+` class
excludes the dot), even though `.fq.gz` is listed in
`SUPPORTED_EXTENSIONS` — the claim expects one numeric-convention pair. -/
theorem pair_matcher_fq_gz_no_pair :
    (detect_pairs c2Files).1 = [] ∧
    (detect_pairs c2Files).2.map FileDesc.id = ["1", "2"] := by
  constructor <;> decide

/-! ### C3: double consumption of a partner file -/

/-- Input: a matched R1/R2 pair plus a duplicate-named (different id)
lower-case `s_r1.fastq`. -/
def c3Files : List FileDesc :=
  [⟨"1", "s_R1.fastq", 100, "fastq"⟩, ⟨"2", "s_R2.fastq", 100, "fastq"⟩,
   ⟨"3", "s_r1.fastq", 100, "fastq"⟩]

/-- C3 evaluated at the failing input: `_find_pair` scans all files without
consulting `processed_files`, so descriptor `"2"` is consumed twice — it
appears in both returned groups (`("1","2")` and `("3","2")`), and the
unpaired list is empty; the claim says each descriptor appears in at most
one pair group. -/
theorem pair_matcher_double_consumption :
    ((detect_pairs c3Files).1.map (fun g => (g.file1.id, g.file2.id))
        = [("1", "2"), ("3", "2")]) ∧
    (detect_pairs c3Files).2 = [] := by
  constructor <;> decide

/-! ### C8/C9: the confidence score -/

/-- The naming-pattern term of the confidence score (`+0.4` strong R1/R2,
else `+0.3` numeric — mutually exclusive). -/
def patTerm (f1 f2 : FileDesc) : ℚ :=
  if (strContains (strLower f1.name) "_r1" && strContains (strLower f2.name) "_r2")
      || (strContains (strLower f1.name) "_r2" && strContains (strLower f2.name) "_r1") then 4/10
  else if (strContains (strLower f1.name) "_1" && strContains (strLower f2.name) "_2")
      || (strContains (strLower f1.name) "_2" && strContains (strLower f2.name) "_1") then 3/10
  else 0

/-- The size-ratio term: `0.3 · min/max` when both sizes are positive. -/
def sizeTerm (f1 f2 : FileDesc) : ℚ :=
  if 0 < f1.file_size ∧ 0 < f2.file_size then
    ((min f1.file_size f2.file_size : ℚ) / (max f1.file_size f2.file_size : ℚ)) * (3/10)
  else 0

/-- The dataType term as the claim words it: `+0.2` only when both values
are equal AND non-empty. -/
def dataTypeTermClaimed (f1 f2 : FileDesc) : ℚ :=
  if f1.data_type = f2.data_type ∧ f1.data_type ≠ "" then 2/10 else 0

/-- The dataType term the code implements: `+0.2` whenever the two values
are equal, both empty included. -/
def dataTypeTermCode (f1 f2 : FileDesc) : ℚ :=
  if f1.data_type = f2.data_type then 2/10 else 0

/-- C8's formula exactly as claimed, for comparison with the code. -/
def claimed_pair_confidence (f1 f2 : FileDesc) : ℚ :=
  min (patTerm f1 f2 + sizeTerm f1 f2 + dataTypeTermClaimed f1 f2) 1

/-- C8 counterexample: two files with no pattern match, no sizes, and both
`data_type` empty.  The code grants the `+0.2` dataType bonus for the
matching empty strings (total `0.2`); the claimed formula, which requires
the values non-empty, yields `0`. -/
theorem pair_confidence_empty_dataType_cex :
    calculate_pair_confidence ⟨"1", "x", 0, ""⟩ ⟨"2", "y", 0, ""⟩ = 2/10 ∧
    claimed_pair_confidence ⟨"1", "x", 0, ""⟩ ⟨"2", "y", 0, ""⟩ = 0 := by
  have hb1 : ((strContains (strLower "x") "_r1" && strContains (strLower "y") "_r2")
      || (strContains (strLower "x") "_r2" && strContains (strLower "y") "_r1")) = false := by
    decide
  have hb2 : ((strContains (strLower "x") "_1" && strContains (strLower "y") "_2")
      || (strContains (strLower "x") "_2" && strContains (strLower "y") "_1")) = false := by
    decide
  constructor
  · simp [calculate_pair_confidence, hb1, hb2, min_def]
    norm_num
  · simp [claimed_pair_confidence, patTerm, sizeTerm, dataTypeTermClaimed, hb1, hb2, min_def]

/-- The sequentially accumulated score of the code equals the sum of the
three independent terms, clamped (shared helper). -/
theorem confidence_terms_eq (f1 f2 : FileDesc) :
    calculate_pair_confidence f1 f2
      = min (patTerm f1 f2 + sizeTerm f1 f2 + dataTypeTermCode f1 f2) 1 := by
  simp only [calculate_pair_confidence, patTerm, sizeTerm, dataTypeTermCode]
  split_ifs <;> first
    | rfl
    | (congr 1; ring)

/-- C8 (amended): the pair confidence equals the sum of the pattern term
(0.4 R1/R2 or else 0.3 numeric, mutually exclusive), the size-ratio term
(0.3 scaled by min/max when both sizes are positive), and 0.2 when the two
`dataType` values are equal — including when both are empty/missing —
clamped to at most 1. -/
theorem pair_confidence_formula (f1 f2 : FileDesc) :
    calculate_pair_confidence f1 f2
      = min (patTerm f1 f2 + sizeTerm f1 f2 + dataTypeTermCode f1 f2) 1 :=
  confidence_terms_eq f1 f2

/-- C9: holding the names (hence the pattern term) fixed, the confidence is
monotone non-decreasing in the size ratio `min/max`, and does not decrease
when the two `dataType` values change from differing to matching. -/
theorem pair_confidence_monotone (i1 i2 i3 i4 n1 n2 d1 d2 d : String)
    (s1 s2 s1' s2' : ℕ)
    (h1 : 0 < s1) (h2 : 0 < s2) (h1' : 0 < s1') (h2' : 0 < s2')
    (hr : (min s1 s2 : ℚ) / (max s1 s2 : ℚ) ≤ (min s1' s2' : ℚ) / (max s1' s2' : ℚ))
    (hd : d1 ≠ d2) :
    calculate_pair_confidence ⟨i1, n1, s1, d1⟩ ⟨i2, n2, s2, d2⟩
        ≤ calculate_pair_confidence ⟨i3, n1, s1', d1⟩ ⟨i4, n2, s2', d2⟩ ∧
    calculate_pair_confidence ⟨i1, n1, s1, d1⟩ ⟨i2, n2, s2, d2⟩
        ≤ calculate_pair_confidence ⟨i1, n1, s1, d⟩ ⟨i2, n2, s2, d⟩ := by
  have hmul : (min s1 s2 : ℚ) / (max s1 s2 : ℚ) * (3/10)
      ≤ (min s1' s2' : ℚ) / (max s1' s2' : ℚ) * (3/10) :=
    mul_le_mul_of_nonneg_right hr (by norm_num)
  constructor
  · rw [confidence_terms_eq, confidence_terms_eq]
    refine min_le_min (add_le_add (add_le_add le_rfl ?_) le_rfl) le_rfl
    simp only [sizeTerm]
    rw [if_pos (show 0 < s1 ∧ 0 < s2 from ⟨h1, h2⟩),
      if_pos (show 0 < s1' ∧ 0 < s2' from ⟨h1', h2'⟩)]
    exact hmul
  · rw [confidence_terms_eq, confidence_terms_eq]
    refine min_le_min (add_le_add (add_le_add le_rfl le_rfl) ?_) le_rfl
    simp only [dataTypeTermCode]
    rw [if_neg hd]
    norm_num

/-- Witness for C9: sizes `(1,2)` (ratio 1/2) against `(1,1)` (ratio 1),
and data types `"a" ≠ "b"` against matching `"c"`. -/
theorem pair_confidence_monotone_witness :
    0 < 1 ∧ 0 < 2 ∧
    ((min 1 2 : ℕ) : ℚ) / ((max 1 2 : ℕ) : ℚ) ≤ ((min 1 1 : ℕ) : ℚ) / ((max 1 1 : ℕ) : ℚ) ∧
    ("a" : String) ≠ "b" ∧
    (calculate_pair_confidence ⟨"1", "x", 1, "a"⟩ ⟨"2", "y", 2, "b"⟩
        ≤ calculate_pair_confidence ⟨"3", "x", 1, "a"⟩ ⟨"4", "y", 1, "b"⟩ ∧
      calculate_pair_confidence ⟨"1", "x", 1, "a"⟩ ⟨"2", "y", 2, "b"⟩
        ≤ calculate_pair_confidence ⟨"1", "x", 1, "c"⟩ ⟨"2", "y", 2, "c"⟩) :=
  ⟨by norm_num, by norm_num, by norm_num [min_def, max_def], by decide,
    pair_confidence_monotone "1" "2" "3" "4" "x" "y" "a" "b" "c" 1 2 1 1
      (by norm_num) (by norm_num) (by norm_num) (by norm_num)
      (by norm_num [min_def, max_def]) (by decide)⟩

end Galaksio
